import Mathlib

/-! Shallow embedding of the vault full-statistics plugin core: the markdown
tokenizer (src/text.ts, class MarkdownTokenizer) and the incremental metrics
collector (FullVaultMetricsCollector and the per-document collectors).
JS strings are modelled as `List Char`; JS numbers holding counts are
modelled as `Int` and the derived quality ratio as `ℚ`.

The regular expressions of text.ts are small anchored patterns of the shape
/^(A)?(.*?)(B)?$/ whose JS semantics (greedy optional edge groups, lazy
middle, dot not matching line terminators) are translated into explicit
drop-prefix / drop-suffix functions; each translation is documented at the
definition that embeds it. -/

/-- Backtick character (code point 96), member of the punctuation strip set. -/
def backtickChar : Char := Char.ofNat 96

/-- A word character in the sense of the regex class [\wа-яА-ЯёЁ] used by
`MarkdownTokenizer.isNonWord`: ASCII letters, digits, underscore, and the
basic Cyrillic letter ranges plus ё/Ё. -/
def wordChar (c : Char) : Bool :=
  (0x41 ≤ c.toNat && c.toNat ≤ 0x5a) || (0x61 ≤ c.toNat && c.toNat ≤ 0x7a) ||
  (0x30 ≤ c.toNat && c.toNat ≤ 0x39) || c == '_' ||
  (0x430 ≤ c.toNat && c.toNat ≤ 0x44f) || (0x410 ≤ c.toNat && c.toNat ≤ 0x42f) ||
  c.toNat == 0x451 || c.toNat == 0x401

/-- An ASCII word character in the sense of regex \w (no Cyrillic), used by
the fenced-code-block header pattern. -/
def asciiWordChar (c : Char) : Bool :=
  (0x41 ≤ c.toNat && c.toNat ≤ 0x5a) || (0x61 ≤ c.toNat && c.toNat ≤ 0x7a) ||
  (0x30 ≤ c.toNat && c.toNat ≤ 0x39) || c == '_'

/-- ASCII digit, regex \d. -/
def digitChar (c : Char) : Bool := 0x30 ≤ c.toNat && c.toNat ≤ 0x39

/-- `MarkdownTokenizer.isNonWord`: token matches /^[^\wа-яА-ЯёЁ]+$/, i.e. it
is non-empty and every character is a non-word character. -/
def isNonWord (t : List Char) : Bool :=
  !t.isEmpty && t.all (fun c => !wordChar c)

/-- `MarkdownTokenizer.isNumber`: token matches /^\d+(\.\d+)?$/ — one or more
digits, optionally followed by a decimal point and one or more digits. -/
def isNumber (t : List Char) : Bool :=
  let ds := t.takeWhile digitChar
  let rest := t.dropWhile digitChar
  !ds.isEmpty &&
    (rest.isEmpty ||
      (rest.head? == some '.' && !rest.tail.isEmpty && rest.tail.all digitChar))

/-- `MarkdownTokenizer.isCodeBlockHeader`: token matches /^```\w+$/ — three
backticks immediately followed by one or more ASCII word characters. -/
def isCodeBlockHeader (t : List Char) : Bool :=
  match t with
  | b1 :: b2 :: b3 :: rest =>
    b1 == backtickChar && b2 == backtickChar && b3 == backtickChar &&
      !rest.isEmpty && rest.all asciiWordChar
  | _ => false

/-- JS line terminators: the dot in a non-dotAll JS regex matches any
character except these. A token containing one of them cannot be covered by
the lazy middle group (.*?) of the strip patterns, so the pattern fails to
match and `MarkdownTokenizer.strip` returns the empty string. -/
def lineTerminator (c : Char) : Bool :=
  c == '\n' || c == '\r' || c.toNat == 0x2028 || c.toNat == 0x2029

/-- Whether the token contains a JS line terminator (the regex-failure case
of the strip patterns). -/
def hasLineTerminator (t : List Char) : Bool := t.any lineTerminator

/-- Drop `n` characters from the right end of the list. -/
def dropRightN (n : Nat) (t : List Char) : List Char := t.take (t.length - n)

/-- Shared shape of `stripHighlights` and `stripWikiLinks`:
/^(op)?(.*?)(cl)?$/ with fixed multi-character markers `op` and `cl`.
The greedy leading group removes one `op` if the token starts with it; the
lazy middle then stops at the first position from which the optional
trailing group plus end-of-string succeeds, which removes one trailing `cl`
if present. -/
def stripPair (op cl : List Char) (t : List Char) : List Char :=
  let r := if op.isPrefixOf t then t.drop op.length else t
  if cl.isSuffixOf r then dropRightN cl.length r else r

/-- `MarkdownTokenizer.stripHighlights`: /^(==)?(.*?)(==)?$/ — remove one
leading and one trailing == highlight marker per pass; a token containing a
line terminator fails the regex and is mapped to the empty string. -/
def stripHighlights (t : List Char) : List Char :=
  if hasLineTerminator t then [] else stripPair ['=', '='] ['=', '='] t

/-- Drop the maximal leading run of character `c`. -/
def dropLeadingRun (c : Char) (t : List Char) : List Char :=
  t.dropWhile (fun x => x == c)

/-- Drop the maximal trailing run of character `c`. -/
def dropTrailingRun (c : Char) (t : List Char) : List Char :=
  (t.reverse.dropWhile (fun x => x == c)).reverse

/-- Leading trim of `stripFormatting`: the greedy group (_+|\*+)? removes
the maximal leading run of underscores (if the token starts with one) or of
asterisks (if it starts with one). -/
def formattingLeadTrim (t : List Char) : List Char :=
  match t.head? with
  | some c =>
    if c == '_' then dropLeadingRun '_' t
    else if c == '*' then dropLeadingRun '*' t
    else t
  | none => t

/-- Trailing trim of `stripFormatting`: the lazy middle stops at the first
position from which a uniform run of underscores or asterisks extends to
the end, so the maximal trailing uniform run determined by the last
character is removed. -/
def formattingTrailTrim (r : List Char) : List Char :=
  match r.getLast? with
  | some c =>
    if c == '_' then dropTrailingRun '_' r
    else if c == '*' then dropTrailingRun '*' r
    else r
  | none => r

/-- `MarkdownTokenizer.stripFormatting`: /^(_+|\*+)?(.*?)(_+|\*+)?$/.
Line terminators fail the regex. -/
def stripFormatting (t : List Char) : List Char :=
  if hasLineTerminator t then [] else formattingTrailTrim (formattingLeadTrim t)

/-- The punctuation strip set of `MarkdownTokenizer.stripPunctuation`:
backtick, period, colon, double quote, comma, exclamation, question mark. -/
def punctChars : List Char := [backtickChar, '.', ':', '"', ',', '!', '?']

/-- Leading trim of `stripPunctuation`: remove one leading punctuation
character if present. -/
def punctLeadTrim (t : List Char) : List Char :=
  match t with
  | [] => []
  | c :: rest => if punctChars.contains c then rest else t

/-- Trailing trim of `stripPunctuation`: remove one trailing punctuation
character if present. -/
def punctTrailTrim (r : List Char) : List Char :=
  match r.getLast? with
  | some c => if punctChars.contains c then r.dropLast else r
  | none => r

/-- `MarkdownTokenizer.stripPunctuation`: /^(`|\.|:|"|,|!|\?)?(.*?)(`|\.|:|"|,|!|\?)?$/
— remove at most one leading and one trailing punctuation character per
pass. Line terminators fail the regex. -/
def stripPunctuation (t : List Char) : List Char :=
  if hasLineTerminator t then [] else punctTrailTrim (punctLeadTrim t)

/-- `MarkdownTokenizer.stripWikiLinks`: /^(\[\[)?(.*?)(\]\])?$/ — remove one
wrapping wiki-link bracket pair per pass. Line terminators fail the regex. -/
def stripWikiLinks (t : List Char) : List Char :=
  if hasLineTerminator t then [] else stripPair ['[', '['] [']', ']'] t

/-- One full pass of the four strips of `MarkdownTokenizer.stripAll`, in the
order of the map chain: highlights, formatting, punctuation, wiki links. -/
def onePass (t : List Char) : List Char :=
  stripWikiLinks (stripPunctuation (stripFormatting (stripHighlights t)))

lemma isPrefixOf_ne_nil {op t : List Char} (hop : op ≠ []) (h : op.isPrefixOf t) :
    t ≠ [] := by
  intro ht
  subst ht
  cases op with
  | nil => exact absurd rfl hop
  | cons c cs => simp at h

lemma isSuffixOf_ne_nil {cl t : List Char} (hcl : cl ≠ []) (h : cl.isSuffixOf t) :
    t ≠ [] := by
  intro ht
  subst ht
  cases cl with
  | nil => exact absurd rfl hcl
  | cons c cs => simp at h

lemma hasLineTerminator_nil : hasLineTerminator [] = false := rfl

lemma stripPair_shrink (op cl : List Char) (hop : op ≠ []) (hcl : cl ≠ [])
    (t : List Char) :
    stripPair op cl t = t ∨ (stripPair op cl t).length < t.length := by
  unfold stripPair
  by_cases hp : op.isPrefixOf t
  · right
    have ht : t ≠ [] := isPrefixOf_ne_nil hop hp
    have h1 : (t.drop op.length).length < t.length := by
      rw [List.length_drop]
      have h2 : 0 < op.length := List.length_pos.mpr hop
      have h3 : 0 < t.length := List.length_pos.mpr ht
      omega
    rw [if_pos hp]
    by_cases hs : cl.isSuffixOf (t.drop op.length)
    · rw [if_pos hs]
      calc (dropRightN cl.length (t.drop op.length)).length
          ≤ (t.drop op.length).length := by
            unfold dropRightN; rw [List.length_take]; omega
        _ < t.length := h1
    · rw [if_neg hs]
      exact h1
  · rw [if_neg hp]
    by_cases hs : cl.isSuffixOf t
    · right
      have ht : t ≠ [] := isSuffixOf_ne_nil hcl hs
      rw [if_pos hs]
      unfold dropRightN
      rw [List.length_take]
      have h2 : 0 < cl.length := List.length_pos.mpr hcl
      have h3 : 0 < t.length := List.length_pos.mpr ht
      omega
    · left; rw [if_neg hs]

lemma stripHighlights_shrink (t : List Char) :
    stripHighlights t = t ∨ (stripHighlights t).length < t.length := by
  unfold stripHighlights
  by_cases h : hasLineTerminator t
  · right
    have ht : t ≠ [] := by
      intro he; subst he; rw [hasLineTerminator_nil] at h; exact absurd h (by simp)
    simp only [h, if_true, List.length_nil]
    exact List.length_pos.mpr ht
  · simp only [h, if_false]
    exact stripPair_shrink _ _ (by simp) (by simp) t

lemma stripWikiLinks_shrink (t : List Char) :
    stripWikiLinks t = t ∨ (stripWikiLinks t).length < t.length := by
  unfold stripWikiLinks
  by_cases h : hasLineTerminator t
  · right
    have ht : t ≠ [] := by
      intro he; subst he; rw [hasLineTerminator_nil] at h; exact absurd h (by simp)
    simp only [h, if_true, List.length_nil]
    exact List.length_pos.mpr ht
  · simp only [h, if_false]
    exact stripPair_shrink _ _ (by simp) (by simp) t

lemma dropLeadingRun_shrink (c : Char) (t : List Char) (h : t.head? = some c) :
    (dropLeadingRun c t).length < t.length := by
  cases t with
  | nil => simp at h
  | cons d ds =>
    simp only [List.head?_cons, Option.some.injEq] at h
    subst h
    unfold dropLeadingRun
    rw [List.dropWhile_cons]
    simp only [beq_self_eq_true, if_true]
    have h1 : (ds.dropWhile (fun x => x == d)).length ≤ ds.length :=
      (List.dropWhile_sublist (fun x => x == d)).length_le
    simp only [List.length_cons]
    omega

lemma dropTrailingRun_shrink (c : Char) (t : List Char)
    (h : t.getLast? = some c) : (dropTrailingRun c t).length < t.length := by
  have hrev : t.reverse.head? = some c := by
    rw [List.head?_reverse]; exact h
  have h1 := dropLeadingRun_shrink c t.reverse hrev
  unfold dropLeadingRun at h1
  unfold dropTrailingRun
  rw [List.length_reverse] at h1 ⊢
  exact h1

lemma formattingLeadTrim_shrink (t : List Char) :
    formattingLeadTrim t = t ∨ (formattingLeadTrim t).length < t.length := by
  unfold formattingLeadTrim
  split
  · rename_i c hl
    split
    · rename_i hc
      right
      have hceq : c = '_' := by simpa using hc
      subst hceq
      exact dropLeadingRun_shrink '_' t hl
    · split
      · rename_i hc2
        right
        have hceq : c = '*' := by simpa using hc2
        subst hceq
        exact dropLeadingRun_shrink '*' t hl
      · left; rfl
  · left; rfl

lemma formattingTrailTrim_shrink (r : List Char) :
    formattingTrailTrim r = r ∨ (formattingTrailTrim r).length < r.length := by
  unfold formattingTrailTrim
  split
  · rename_i c hl
    split
    · rename_i hc
      right
      have hceq : c = '_' := by simpa using hc
      subst hceq
      exact dropTrailingRun_shrink '_' r hl
    · split
      · rename_i hc2
        right
        have hceq : c = '*' := by simpa using hc2
        subst hceq
        exact dropTrailingRun_shrink '*' r hl
      · left; rfl
  · left; rfl

lemma punctLeadTrim_shrink (t : List Char) :
    punctLeadTrim t = t ∨ (punctLeadTrim t).length < t.length := by
  unfold punctLeadTrim
  split
  · left; rfl
  · rename_i c rest
    split
    · right; simp
    · left; rfl

lemma punctTrailTrim_shrink (r : List Char) :
    punctTrailTrim r = r ∨ (punctTrailTrim r).length < r.length := by
  unfold punctTrailTrim
  split
  · rename_i c hl
    split
    · right
      have hr : r ≠ [] := by
        intro he; subst he; simp at hl
      rw [List.length_dropLast]
      have := List.length_pos.mpr hr
      omega
    · left; rfl
  · left; rfl

lemma comp2_shrink {f g : List Char → List Char}
    (hf : ∀ t, f t = t ∨ (f t).length < t.length)
    (hg : ∀ t, g t = t ∨ (g t).length < t.length) (t : List Char) :
    g (f t) = t ∨ (g (f t)).length < t.length := by
  rcases hf t with h1 | h1
  · rw [h1]; exact hg t
  · rcases hg (f t) with h2 | h2
    · rw [h2]; right; exact h1
    · right; omega

lemma stripFormatting_shrink (t : List Char) :
    stripFormatting t = t ∨ (stripFormatting t).length < t.length := by
  unfold stripFormatting
  by_cases h : hasLineTerminator t
  · right
    have ht : t ≠ [] := by
      intro he; subst he; rw [hasLineTerminator_nil] at h; exact absurd h (by simp)
    simp only [h, if_true, List.length_nil]
    exact List.length_pos.mpr ht
  · simp only [h, if_false]
    exact comp2_shrink formattingLeadTrim_shrink formattingTrailTrim_shrink t

lemma stripPunctuation_shrink (t : List Char) :
    stripPunctuation t = t ∨ (stripPunctuation t).length < t.length := by
  unfold stripPunctuation
  by_cases h : hasLineTerminator t
  · right
    have ht : t ≠ [] := by
      intro he; subst he; rw [hasLineTerminator_nil] at h; exact absurd h (by simp)
    simp only [h, if_true, List.length_nil]
    exact List.length_pos.mpr ht
  · simp only [h, if_false]
    exact comp2_shrink punctLeadTrim_shrink punctTrailTrim_shrink t

/-- Each full pass of the four strips either fixes the token or strictly
shortens it. -/
lemma onePass_shrink (t : List Char) :
    onePass t = t ∨ (onePass t).length < t.length := by
  unfold onePass
  exact comp2_shrink
    (comp2_shrink (comp2_shrink stripHighlights_shrink stripFormatting_shrink)
      stripPunctuation_shrink)
    stripWikiLinks_shrink t

/-- `MarkdownTokenizer.stripAll`: repeat the four-strip pass until a full
pass leaves the token unchanged (an empty input returns immediately). -/
def stripAll (t : List Char) : List Char :=
  if t = [] then t
  else
    if h : onePass t = t then t
    else stripAll (onePass t)
termination_by t.length
decreasing_by
  rcases onePass_shrink t with he | hl
  · exact absurd he h
  · exact hl

/-- Fuel-bounded version of the `stripAll` loop, structurally recursive so
that concrete runs reduce inside the kernel. -/
def iterStrip : Nat → List Char → List Char
  | 0, t => t
  | n + 1, t => if onePass t = t then t else iterStrip n (onePass t)

lemma iterStrip_eq_stripAll (n : Nat) :
    ∀ t : List Char, t.length ≤ n → iterStrip (n + 1) t = stripAll t := by
  induction n with
  | zero =>
    intro t ht
    have h0 : t = [] := List.length_eq_zero.mp (Nat.le_zero.mp ht)
    subst h0
    have hfix : onePass ([] : List Char) = [] := by decide
    simp [iterStrip, stripAll, hfix]
  | succ n ih =>
    intro t ht
    by_cases ht0 : t = []
    · subst ht0
      have hfix : onePass ([] : List Char) = [] := by decide
      simp [iterStrip, stripAll, hfix]
    · rw [stripAll]
      simp only [ht0, if_false]
      by_cases hfix : onePass t = t
      · simp [iterStrip, hfix]
      · rw [show iterStrip (n + 1 + 1) t = iterStrip (n + 1) (onePass t) by
          rw [iterStrip]; simp [hfix]]
        rw [dif_neg hfix]
        apply ih
        rcases onePass_shrink t with he | hl
        · exact absurd he hfix
        · omega

/-- The unbounded strip loop equals the fuel-bounded one with fuel
length + 1: the loop makes at most length + 1 passes. -/
lemma stripAll_eq_fuel (t : List Char) :
    stripAll t = iterStrip (t.length + 1) t :=
  (iterStrip_eq_stripAll t.length t le_rfl).symm

/-- JS whitespace for String.prototype.trim. -/
def jsWhitespace (c : Char) : Bool :=
  ([9, 0xa, 0xb, 0xc, 0xd, 0x20, 0xa0, 0x1680, 0x2000, 0x2001, 0x2002, 0x2003,
    0x2004, 0x2005, 0x2006, 0x2007, 0x2008, 0x2009, 0x200a, 0x2028, 0x2029,
    0x202f, 0x205f, 0x3000, 0xfeff] : List Nat).contains c.toNat

/-- String.prototype.trim: drop leading and trailing whitespace. -/
def jsTrim (t : List Char) : List Char :=
  ((t.dropWhile jsWhitespace).reverse.dropWhile jsWhitespace).reverse

/-- The word-boundary class of `MarkdownTokenizer.tokenize`:
[ \n\r\t"\|,\(\)\[\]/]. -/
def isBoundaryChar (c : Char) : Bool :=
  c == ' ' || c == '\n' || c == '\r' || c == '\t' || c == '"' || c == '|' ||
  c == ',' || c == '(' || c == ')' || c == '[' || c == ']' || c == '/'

/-- Worker for JS String.split on the regex /[boundary]+/: consecutive
boundary characters form one separator; a leading or trailing separator
contributes an empty segment. The Bool flag records being inside a
separator run whose segment boundary was already emitted. -/
def splitRunsAux (p : Char → Bool) : Bool → List Char → List Char → List (List Char)
  | _, [], acc => [acc.reverse]
  | inRun, c :: rest, acc =>
    if p c then
      if inRun then splitRunsAux p true rest acc
      else acc.reverse :: splitRunsAux p true rest []
    else splitRunsAux p false rest (c :: acc)

/-- JS content.split(/[ \n\r\t"\|,\(\)\[\]/]+/). -/
def splitBoundary (content : List Char) : List (List Char) :=
  splitRunsAux isBoundaryChar false content []

/-- `MarkdownTokenizer.tokenize`: trim-empty check, split on the boundary
class, drop all-non-word candidates, drop numbers, drop fenced-code-block
headers, strip each survivor to its fixed point, and drop tokens that
became empty. -/
def markdownTokenize (content : List Char) : List (List Char) :=
  if jsTrim content = [] then []
  else
    (((((splitBoundary content).filter (fun tok => !isNonWord tok)).filter
        (fun tok => !isNumber tok)).filter
        (fun tok => !isCodeBlockHeader tok)).map
        (fun tok => stripAll tok)).filter (fun tok => tok.length > 0)

/-- `UnitTokenizer.tokenize`: always the empty list. -/
def unitTokenize (_ : List Char) : List (List Char) := []

/-! ## The metrics record and the incremental aggregation engine
(src/unnamed/part_000: FullVaultMetricsCollector, NoteMetricsCollector,
FileMetricsCollector). -/

/-- Modelled from the spec: `FullVaultMetrics` lives in ./metrics, which is
not part of the sources; the spec fixes its shape (files, documents/notes,
attachments, sizeBytes/size, linkCount/links, wordCount/words,
tagCount/tags, and the derived quality ratio). Count fields are JS numbers
holding integers, modelled as `Int`; quality is the derived ratio, modelled
as `ℚ`. `new FullVaultMetrics()` is the all-zero record, which is also what
`FullVaultMetricsCollector.update` substitutes for an absent map entry. -/
@[ext] structure FullVaultMetrics where
  files : Int := 0
  notes : Int := 0
  attachments : Int := 0
  size : Int := 0
  links : Int := 0
  words : Int := 0
  tags : Int := 0
  quality : ℚ := 0
deriving DecidableEq, Repr

/-- Modelled from the spec: the derived quality ratio, "link count per
document count, 0 when there are no documents" (glossary and §4.4). -/
def qualityOf (notes links : Int) : ℚ :=
  if notes = 0 then 0 else (links : ℚ) / (notes : ℚ)

/-- Modelled from the spec: `FullVaultMetrics.inc` (./metrics is not under
the sources) — field-wise addition of the seven count fields; quality is
recomputed from the summed fields rather than summed (§4.4). -/
def FullVaultMetrics.inc (a b : FullVaultMetrics) : FullVaultMetrics :=
  { files := a.files + b.files
    notes := a.notes + b.notes
    attachments := a.attachments + b.attachments
    size := a.size + b.size
    links := a.links + b.links
    words := a.words + b.words
    tags := a.tags + b.tags
    quality := qualityOf (a.notes + b.notes) (a.links + b.links) }

/-- Modelled from the spec: `FullVaultMetrics.dec` — field-wise subtraction
of the seven count fields; quality recomputed like in `inc`. -/
def FullVaultMetrics.dec (a b : FullVaultMetrics) : FullVaultMetrics :=
  { files := a.files - b.files
    notes := a.notes - b.notes
    attachments := a.attachments - b.attachments
    size := a.size - b.size
    links := a.links - b.links
    words := a.words - b.words
    tags := a.tags - b.tags
    quality := qualityOf (a.notes - b.notes) (a.links - b.links) }

/-- The slice of obsidian's TFile that the collector reads: path, extension
and stat.size. -/
structure TFile where
  path : String
  extension : String
  size : Int
deriving DecidableEq, Repr

/-- A section entry of obsidian's CachedMetadata: its type tag and its
start/end offsets into the raw content. -/
structure SectionCache where
  type : String
  startOffset : Nat
  endOffset : Nat
deriving DecidableEq, Repr

/-- The slice of obsidian's CachedMetadata that the collector reads: the
numbers of link and tag entries (each array may be absent) and the section
list (may be absent). -/
structure CachedMetadata where
  links : Option Nat
  tags : Option Nat
  sections : Option (List SectionCache)
deriving DecidableEq, Repr

/-- Outcome of `metadataCache.getFileCache(file)`: a CachedMetadata value, a
null return, or a thrown exception (observed when the file no longer
exists). -/
inductive FileCacheResult where
  | ok (m : CachedMetadata)
  | nullResult
  | threw
deriving DecidableEq, Repr

/-- The external collaborators of the collector, as read-only oracles:
`getFileCache`, `vault.cachedRead` (`none` models a rejected read promise)
and `vault.getAbstractFileByPath` (`none` models null or a folder). -/
structure Env where
  getFileCache : TFile → FileCacheResult
  cachedRead : TFile → Option (List Char)
  getAbstractFileByPath : String → Option TFile

/-- The FileType enum of the collector. -/
inductive FileType where
  | Unknown
  | Note
  | Attachment
deriving DecidableEq, Repr

/-- ASCII lowering, modelling String.prototype.toLowerCase as used on file
extensions. -/
def toLowerAscii (s : String) : String :=
  ⟨s.data.map (fun c =>
    if 0x41 ≤ c.toNat && c.toNat ≤ 0x5a then Char.ofNat (c.toNat + 32) else c)⟩

/-- `FullVaultMetricsCollector.getFileType`: extension "md"
(case-insensitive) is a note, anything else an attachment. -/
def getFileType (file : TFile) : FileType :=
  if toLowerAscii file.extension = "md" then FileType.Note else FileType.Attachment

/-- The tokenizer strategies of `NoteMetricsCollector.TOKENIZERS`. -/
inductive TokenizerKind where
  | markdown
  | unit
deriving DecidableEq, Repr

/-- `NoteMetricsCollector.TOKENIZERS`: the static section-type → tokenizer
table. An unknown section type yields none. -/
def tokenizersGet (sectionType : String) : Option TokenizerKind :=
  match sectionType with
  | "paragraph" => some TokenizerKind.markdown
  | "heading" => some TokenizerKind.markdown
  | "list" => some TokenizerKind.markdown
  | "table" => some TokenizerKind.unit
  | "yaml" => some TokenizerKind.unit
  | "code" => some TokenizerKind.unit
  | "blockquote" => some TokenizerKind.markdown
  | "math" => some TokenizerKind.unit
  | "thematicBreak" => some TokenizerKind.unit
  | "html" => some TokenizerKind.unit
  | "text" => some TokenizerKind.unit
  | "element" => some TokenizerKind.unit
  | "footnoteDefinition" => some TokenizerKind.unit
  | "definition" => some TokenizerKind.unit
  | "callout" => some TokenizerKind.markdown
  | "comment" => some TokenizerKind.unit
  | _ => none

/-- Dispatch a tokenizer strategy. -/
def runTokenizer : TokenizerKind → List Char → List (List Char)
  | TokenizerKind.markdown, content => markdownTokenize content
  | TokenizerKind.unit, content => unitTokenize content

/-- JS String.prototype.substring with both offsets clamped to the string
length and swapped when start exceeds end. -/
def jsSubstring (content : List Char) (a b : Nat) : List Char :=
  let len := content.length
  let a2 := min a len
  let b2 := min b len
  let lo := min a2 b2
  let hi := max a2 b2
  (content.drop lo).take (hi - lo)

/-- `NoteMetricsCollector.collect`: files=1, notes=1, attachments=0, the
file's byte size, the metadata's link and tag counts, word count summed
over the sections (0 for a section with no registered tokenizer, 0 for the
whole document when the content read fails or the section list is absent),
quality = links/notes since notes=1. `rd` is the result of
`vault.cachedRead` (`none` models the rejected-promise catch branch). -/
def noteMetricsCollect (file : TFile) (metadata : CachedMetadata)
    (rd : Option (List Char)) : FullVaultMetrics :=
  let words : Int :=
    match rd with
    | none => 0
    | some content =>
      match metadata.sections with
      | none => 0
      | some secs =>
        ((secs.map (fun s =>
          match tokenizersGet s.type with
          | none => 0
          | some tk =>
            (runTokenizer tk (jsSubstring content s.startOffset s.endOffset)).length)).sum : Nat)
  let links : Int := (metadata.links.getD 0 : Nat)
  let notes : Int := 1
  { files := 1
    notes := notes
    attachments := 0
    size := file.size
    links := links
    words := words
    tags := ((metadata.tags.getD 0 : Nat) : Int)
    quality := if notes ≠ 0 then (links : ℚ) / (notes : ℚ) else 0 }

/-- `FileMetricsCollector.collect`: an attachment contributes only its file
count and byte size. -/
def fileMetricsCollect (file : TFile) (_metadata : CachedMetadata) :
    FullVaultMetrics :=
  { files := 1
    notes := 0
    attachments := 1
    size := file.size
    links := 0
    words := 0
    tags := 0
    quality := 0 }

/-- `FullVaultMetricsCollector.collect`: getFileCache wrapped in try/catch
(a throw is normalized to null), null metadata yields null ("not found"),
otherwise dispatch on the file type. The TS switch has no Unknown case and
would return undefined there; `getFileType` never produces Unknown. -/
def collect (env : Env) (file : TFile) : Option FullVaultMetrics :=
  let metadata : Option CachedMetadata :=
    match env.getFileCache file with
    | FileCacheResult.ok m => some m
    | FileCacheResult.nullResult => none
    | FileCacheResult.threw => none
  match metadata with
  | none => none
  | some m =>
    match getFileType file with
    | FileType.Note => some (noteMetricsCollect file m (env.cachedRead file))
    | FileType.Attachment => some (fileMetricsCollect file m)
    | FileType.Unknown => none

/-- The collector's mutable state: the key → record map `data` (modelled as
an association list with at most one entry per key), the pending-key
`backlog`, and the running `vaultMetrics` total. -/
structure CollectorState where
  data : List (String × FullVaultMetrics)
  backlog : List String
  vaultMetrics : FullVaultMetrics
deriving DecidableEq, Repr

/-- The state after `start()` clears everything: empty map, empty backlog,
zero totals. -/
def initState : CollectorState :=
  { data := [], backlog := [], vaultMetrics := {} }

/-- JS Map.get on the association list. -/
def storeGet (k : String) : List (String × FullVaultMetrics) → Option FullVaultMetrics
  | [] => none
  | p :: tl => if p.1 = k then some p.2 else storeGet k tl

/-- JS Map.set on the association list: drop any binding of the key and
append the new one (entry order is irrelevant to every property below). -/
def storeSet (k : String) (v : FullVaultMetrics)
    (d : List (String × FullVaultMetrics)) : List (String × FullVaultMetrics) :=
  d.filter (fun p => !(p.1 = k : Bool)) ++ [(k, v)]

/-- `FullVaultMetricsCollector.update`: subtract the stored record for the
key (or the zero record) from the running total, replace the stored record,
add the new record to the running total. The metrics argument is non-null
at both call sites (guarded in `processBacklog`), so the `data.delete`
branch of the source is dead here. -/
def update (key : String) (metrics : FullVaultMetrics) (s : CollectorState) :
    CollectorState :=
  { s with
    vaultMetrics := (s.vaultMetrics.dec ((storeGet key s.data).getD {})).inc metrics
    data := storeSet key metrics s.data }

/-- `FullVaultMetricsCollector.push`: append the path to the backlog iff it
is not already queued. (The TFolder guard of the source is about the typed
overload and does not apply to string keys.) -/
def push (path : String) (backlog : List String) : List String :=
  if backlog.contains path then backlog else backlog ++ [path]

/-- JS String.prototype.includes: `jsIncludes needle hay` is true iff
needle occurs contiguously in hay (always true for the empty needle). -/
def jsIncludes (needle : List Char) : List Char → Bool
  | [] => needle.isPrefixOf []
  | c :: rest => needle.isPrefixOf (c :: rest) || jsIncludes needle rest

/-- JS String.prototype.split with a plain one-character separator (no run
merging): worker carrying the reversed current segment. -/
def splitCharAux (sep : Char) : List Char → List Char → List (List Char)
  | [], acc => [acc.reverse]
  | c :: rest, acc =>
    if c == sep then acc.reverse :: splitCharAux sep rest []
    else splitCharAux sep rest (c :: acc)

/-- path.split("/"). -/
def splitOnSlash (path : List Char) : List (List Char) :=
  splitCharAux '/' path []

/-- The exclusion test of `processBacklog`:
path.split("/").some(dir => excludeDirectories.includes(dir)). -/
def isExcluded (excludeDirectories : String) (path : String) : Bool :=
  (splitOnSlash path.data).any (fun dir => jsIncludes dir excludeDirectories.data)

/-- One iteration body of the `processBacklog` loop after the exclusion
test: resolve the path to a live file (null or a folder leaves the state
untouched), collect, and apply the record via `update` when one was
produced; a null collect result or a caught error leaves the state
untouched. -/
def processKey (env : Env) (path : String) (s : CollectorState) : CollectorState :=
  match env.getAbstractFileByPath path with
  | none => s
  | some file =>
    match collect env file with
    | some metrics => update path metrics s
    | none => s

/-- The `processBacklog` while-loop over the pending keys: shift the head;
if it is excluded, `break` — the source terminates the whole drain cycle
here, leaving the remaining backlog unprocessed; otherwise process the key
and continue. -/
def drainAux (env : Env) (excludeDirectories : String) :
    List String → CollectorState → CollectorState
  | [], s => s
  | path :: rest, s =>
    if isExcluded excludeDirectories path then { s with backlog := rest }
    else drainAux env excludeDirectories rest
      (processKey env path { s with backlog := rest })

/-- `FullVaultMetricsCollector.processBacklog`. -/
def processBacklog (env : Env) (excludeDirectories : String)
    (s : CollectorState) : CollectorState :=
  drainAux env excludeDirectories s.backlog s

/-! ## Store lemmas and the aggregate-sum invariant. -/

/-- Sum of one projected field over all records in the store. -/
def sumBy (f : FullVaultMetrics → Int)
    (d : List (String × FullVaultMetrics)) : Int :=
  (d.map (fun p => f p.2)).sum

/-- The store has at most one entry per key (what a JS Map guarantees by
construction). -/
def keysNodup (d : List (String × FullVaultMetrics)) : Prop :=
  (d.map Prod.fst).Nodup

lemma storeGet_storeSet_self (k : String) (v : FullVaultMetrics)
    (d : List (String × FullVaultMetrics)) :
    storeGet k (storeSet k v d) = some v := by
  unfold storeSet
  induction d with
  | nil => simp [storeGet]
  | cons p tl ih =>
    by_cases h : p.1 = k
    · simpa [List.filter_cons, h] using ih
    · simpa [List.filter_cons, h, storeGet] using ih

lemma sumBy_storeSet (f : FullVaultMetrics → Int)
    (hf : f ({} : FullVaultMetrics) = 0) (k : String) (v : FullVaultMetrics) :
    ∀ d : List (String × FullVaultMetrics), keysNodup d →
      sumBy f (storeSet k v d) =
        sumBy f d - f ((storeGet k d).getD {}) + f v := by
  intro d
  induction d with
  | nil =>
    intro _
    simp [storeSet, sumBy, storeGet, hf]
  | cons p tl ih =>
    intro hnd
    have hnd2 : keysNodup tl := by
      unfold keysNodup at hnd ⊢
      simp only [List.map_cons, List.nodup_cons] at hnd
      exact hnd.2
    have hnotin : p.1 ∉ tl.map Prod.fst := by
      unfold keysNodup at hnd
      simp only [List.map_cons, List.nodup_cons] at hnd
      exact hnd.1
    by_cases h : p.1 = k
    · -- the head is the key: it is filtered out, and no entry of tl has key k
      have hfilter : tl.filter (fun q => !(q.1 = k : Bool)) = tl := by
        apply List.filter_eq_self.mpr
        intro q hq
        have hqk : q.1 ≠ k := by
          intro he
          apply hnotin
          rw [h, ← he]
          exact List.mem_map_of_mem Prod.fst hq
        simp [hqk]
      have hget : storeGet k (p :: tl) = some p.2 := by
        unfold storeGet; rw [if_pos h]
      have hset : storeSet k v (p :: tl) = tl ++ [(k, v)] := by
        unfold storeSet
        simp [List.filter_cons, h, hfilter]
      rw [hset, hget]
      unfold sumBy
      simp only [List.map_append, List.sum_append, List.map_cons,
        List.sum_cons, Option.getD_some, List.map_nil, List.sum_nil]
      ring
    · have hget : storeGet k (p :: tl) = storeGet k tl := by
        rw [show storeGet k (p :: tl) =
          if p.1 = k then some p.2 else storeGet k tl from rfl, if_neg h]
      have hset : storeSet k v (p :: tl) = p :: storeSet k v tl := by
        unfold storeSet
        simp [List.filter_cons, h]
      rw [hset, hget]
      have ih2 := ih hnd2
      unfold sumBy at ih2 ⊢
      simp only [List.map_cons, List.sum_cons]
      rw [ih2]
      ring

lemma keysNodup_storeSet (k : String) (v : FullVaultMetrics)
    (d : List (String × FullVaultMetrics)) (h : keysNodup d) :
    keysNodup (storeSet k v d) := by
  unfold keysNodup storeSet
  rw [List.map_append, List.nodup_append]
  refine ⟨?_, by simp, ?_⟩
  · exact h.sublist (List.Sublist.map Prod.fst (List.filter_sublist d))
  · intro a ha
    rw [List.mem_map] at ha
    obtain ⟨q, hq, hqa⟩ := ha
    rw [List.mem_filter] at hq
    have : q.1 ≠ k := by simpa using hq.2
    simp only [List.map_cons, List.map_nil, List.mem_singleton]
    intro he
    exact this (by rw [← hqa] at he; exact he)

/-- The seven-field sum invariant tying the running total to the store. -/
def aggInv (s : CollectorState) : Prop :=
  s.vaultMetrics.files = sumBy (fun m => m.files) s.data ∧
  s.vaultMetrics.notes = sumBy (fun m => m.notes) s.data ∧
  s.vaultMetrics.attachments = sumBy (fun m => m.attachments) s.data ∧
  s.vaultMetrics.size = sumBy (fun m => m.size) s.data ∧
  s.vaultMetrics.links = sumBy (fun m => m.links) s.data ∧
  s.vaultMetrics.words = sumBy (fun m => m.words) s.data ∧
  s.vaultMetrics.tags = sumBy (fun m => m.tags) s.data

lemma update_field_eq (f : FullVaultMetrics → Int)
    (hf : f ({} : FullVaultMetrics) = 0)
    (hproj : ∀ a b c : FullVaultMetrics, f ((a.dec b).inc c) = f a - f b + f c)
    (k : String) (r : FullVaultMetrics) (s : CollectorState)
    (hnd : keysNodup s.data) (he : f s.vaultMetrics = sumBy f s.data) :
    f (update k r s).vaultMetrics = sumBy f (update k r s).data := by
  show f ((s.vaultMetrics.dec ((storeGet k s.data).getD {})).inc r) =
    sumBy f (storeSet k r s.data)
  rw [hproj, sumBy_storeSet f hf k r s.data hnd, he]

lemma update_preserves_inv (k : String) (r : FullVaultMetrics)
    (s : CollectorState) (h : keysNodup s.data ∧ aggInv s) :
    keysNodup (update k r s).data ∧ aggInv (update k r s) := by
  obtain ⟨hnd, e1, e2, e3, e4, e5, e6, e7⟩ := h
  exact ⟨keysNodup_storeSet k r s.data hnd,
    update_field_eq (fun m => m.files) rfl (fun a b c => rfl) k r s hnd e1,
    update_field_eq (fun m => m.notes) rfl (fun a b c => rfl) k r s hnd e2,
    update_field_eq (fun m => m.attachments) rfl (fun a b c => rfl) k r s hnd e3,
    update_field_eq (fun m => m.size) rfl (fun a b c => rfl) k r s hnd e4,
    update_field_eq (fun m => m.links) rfl (fun a b c => rfl) k r s hnd e5,
    update_field_eq (fun m => m.words) rfl (fun a b c => rfl) k r s hnd e6,
    update_field_eq (fun m => m.tags) rfl (fun a b c => rfl) k r s hnd e7⟩

/-- The engine state after a sequence of `apply(key, record)` calls. -/
def applyOps (ops : List (String × FullVaultMetrics)) : CollectorState :=
  ops.foldl (fun s kr => update kr.1 kr.2 s) initState

lemma foldl_update_inv (ops : List (String × FullVaultMetrics)) :
    ∀ s : CollectorState, keysNodup s.data ∧ aggInv s →
      keysNodup ((ops.foldl (fun s kr => update kr.1 kr.2 s) s)).data ∧
        aggInv (ops.foldl (fun s kr => update kr.1 kr.2 s) s) := by
  induction ops with
  | nil => intro s h; exact h
  | cons kr tl ih =>
    intro s h
    rw [List.foldl_cons]
    exact ih _ (update_preserves_inv kr.1 kr.2 s h)

/-! ## Claim theorems. -/

/-- C1: After any sequence of apply(key, record) calls on the Aggregation
Engine starting from the empty state, the AggregateRecord equals the
field-wise sum (files, documents, attachments, sizeBytes, linkCount,
wordCount, tagCount) of all MetricsRecords currently stored in the
KeyedStore. -/
theorem aggregate_eq_store_sum (ops : List (String × FullVaultMetrics)) :
    (applyOps ops).vaultMetrics.files = sumBy (fun m => m.files) (applyOps ops).data ∧
    (applyOps ops).vaultMetrics.notes = sumBy (fun m => m.notes) (applyOps ops).data ∧
    (applyOps ops).vaultMetrics.attachments = sumBy (fun m => m.attachments) (applyOps ops).data ∧
    (applyOps ops).vaultMetrics.size = sumBy (fun m => m.size) (applyOps ops).data ∧
    (applyOps ops).vaultMetrics.links = sumBy (fun m => m.links) (applyOps ops).data ∧
    (applyOps ops).vaultMetrics.words = sumBy (fun m => m.words) (applyOps ops).data ∧
    (applyOps ops).vaultMetrics.tags = sumBy (fun m => m.tags) (applyOps ops).data :=
  (foldl_update_inv ops initState
    ⟨by simp [keysNodup, initState],
     by refine ⟨rfl, rfl, rfl, rfl, rfl, rfl, rfl⟩⟩).2

lemma inc_dec_inc (a b : FullVaultMetrics) :
    ((a.inc b).dec b).inc b = a.inc b := by
  simp only [FullVaultMetrics.inc, FullVaultMetrics.dec]
  simp only [FullVaultMetrics.mk.injEq]
  refine ⟨by ring, by ring, by ring, by ring, by ring, by ring, by ring, ?_⟩
  congr 1 <;> ring

/-- C3: For every key k and every record r, calling apply(k, r) twice in a
row with the same r leaves the AggregateRecord after the second call equal
to the AggregateRecord after the first call (the second apply is a no-op on
the aggregate). -/
theorem apply_idempotent (k : String) (r : FullVaultMetrics)
    (s : CollectorState) :
    (update k r (update k r s)).vaultMetrics = (update k r s).vaultMetrics := by
  show ((((s.vaultMetrics.dec ((storeGet k s.data).getD {})).inc r).dec
      ((storeGet k (storeSet k r s.data)).getD {})).inc r) =
    (s.vaultMetrics.dec ((storeGet k s.data).getD {})).inc r
  rw [storeGet_storeSet_self, Option.getD_some]
  exact inc_dec_inc _ r

lemma push_mem_noop (k : String) (b : List String) (h : k ∈ b) :
    push k b = b := by
  unfold push
  rw [if_pos (by simpa using h)]

/-- C4: For every key k and every backlog state, enqueue(k); enqueue(k)
results in k appearing exactly once in the Backlog before the next drain;
enqueue is a no-op when the key is already queued, so the Backlog never
contains the same key twice simultaneously. -/
theorem enqueue_dedup (k : String) (b : List String) (h : b.Nodup) :
    push k (push k b) = push k b ∧ (push k (push k b)).count k = 1 ∧
      (push k (push k b)).Nodup := by
  have hmem : k ∈ push k b := by
    unfold push
    by_cases hc : b.contains k
    · rw [if_pos hc]; simpa using hc
    · rw [if_neg hc]; exact List.mem_append_right _ (List.mem_singleton.mpr rfl)
  have hstep : push k (push k b) = push k b := push_mem_noop k _ hmem
  refine ⟨hstep, ?_, ?_⟩
  · rw [hstep]
    unfold push
    by_cases hc : b.contains k
    · rw [if_pos hc]
      have h1 := List.nodup_iff_count_le_one.mp h k
      have h2 : 0 < b.count k := List.count_pos_iff.mpr (by simpa using hc)
      omega
    · rw [if_neg hc]
      have h0 : b.count k = 0 := by
        rw [List.count_eq_zero]
        simpa using hc
      rw [List.count_append, h0]
      simp
  · rw [hstep]
    unfold push
    by_cases hc : b.contains k
    · rw [if_pos hc]; exact h
    · rw [if_neg hc]
      rw [List.nodup_append]
      refine ⟨h, by simp, ?_⟩
      intro a ha hamem
      rw [List.mem_singleton] at hamem
      subst hamem
      exact absurd ha (by simpa using hc)

/-- Witness for C4 at a concrete backlog. -/
theorem enqueue_dedup_witness :
    push "x" (push "x" ["a"]) = push "x" ["a"] ∧
      (push "x" (push "x" ["a"])).count "x" = 1 ∧
      (push "x" (push "x" ["a"])).Nodup :=
  enqueue_dedup "x" ["a"] (by decide)

/-- C9: For every input string, the markdown tokenizer's
strip-to-fixed-point loop (stripAll) terminates: each full pass of the four
strips either returns the token unchanged, which ends the loop, or returns
a strictly shorter token, so the loop runs at most length-of-token-plus-one
passes (stripAll equals the pass iteration bounded by length + 1). -/
theorem stripAll_terminates (t : List Char) :
    (onePass t = t ∨ (onePass t).length < t.length) ∧
      stripAll t = iterStrip (t.length + 1) t :=
  ⟨onePass_shrink t, stripAll_eq_fuel t⟩

/-- C5: The markdown tokenizer unwraps multi-layer wrapping markers by
iterating its four-step strip pipeline to a fixed point rather than
single-passing: tokenize("**_word_**") yields exactly ["word"],
tokenize("==x==") yields exactly ["x"], and a single pass of the pipeline
does not reach the fixed point on "**_word_**". -/
theorem tokenize_fixed_point :
    markdownTokenize ("**_word_**".toList) = ["word".toList] ∧
    markdownTokenize ("==x==".toList) = ["x".toList] ∧
    onePass ("**_word_**".toList) ≠ stripAll ("**_word_**".toList) := by
  refine ⟨?_, ?_, ?_⟩
  · simp only [markdownTokenize, stripAll_eq_fuel]
    decide
  · simp only [markdownTokenize, stripAll_eq_fuel]
    decide
  · rw [stripAll_eq_fuel]
    decide

/-- C6: The markdown tokenizer discards purely numeric candidates (digits
with at most one decimal point) and strips a bare trailing period:
tokenize("3.14 is pi.") yields exactly ["is", "pi"]. -/
theorem tokenize_numeric_filter :
    markdownTokenize ("3.14 is pi.".toList) = ["is".toList, "pi".toList] ∧
    isNumber ("3.14".toList) = true ∧ isNumber ("3.1.4".toList) = false ∧
    stripAll ("pi.".toList) = "pi".toList := by
  refine ⟨?_, by decide, by decide, ?_⟩
  · simp only [markdownTokenize, stripAll_eq_fuel]
    decide
  · rw [stripAll_eq_fuel]
    decide

/-- C10 counterexample: tokenize("_=") returns the token "=", which
contains no word character — the emphasis strip consumed the underscore,
the only word character of the candidate. -/
theorem token_without_word_char :
    markdownTokenize ("_=".toList) = [['=']] ∧ wordChar '=' = false := by
  constructor
  · simp only [markdownTokenize, stripAll_eq_fuel]
    decide
  · decide

lemma stripAll_nil : stripAll ([] : List Char) = [] := by
  unfold stripAll
  simp

lemma exists_wordChar_of_not_nonWord {c : List Char} (hne : c ≠ [])
    (h : isNonWord c = false) : ∃ ch ∈ c, wordChar ch = true := by
  unfold isNonWord at h
  rw [Bool.and_eq_false_iff] at h
  rcases h with h | h
  · simp at h
    exact absurd h hne
  · have h2 : ¬(∀ x ∈ c, (!wordChar x) = true) := by
      rw [← List.all_eq_true]
      simp [h]
    push_neg at h2
    obtain ⟨ch, hch, hw⟩ := h2
    refine ⟨ch, hch, ?_⟩
    revert hw
    cases wordChar ch <;> simp

/-- C10 (amended): Every token in the sequence returned by the markdown
tokenizer's tokenize is non-empty, and every token is the strip-pipeline
normalization of a candidate that contained at least one word character
(candidates consisting only of non-word characters are filtered out before
stripping). A returned token need not itself contain a word character,
because the underscore is both a word character and an emphasis marker that
the pipeline strips. -/
theorem tokens_nonempty (content t : List Char)
    (h : t ∈ markdownTokenize content) :
    t ≠ [] ∧ ∃ c : List Char, (∃ ch ∈ c, wordChar ch = true) ∧ t = stripAll c := by
  unfold markdownTokenize at h
  by_cases htrim : jsTrim content = []
  · rw [if_pos htrim] at h
    simp at h
  · rw [if_neg htrim] at h
    rw [List.mem_filter] at h
    obtain ⟨hmap, hlen⟩ := h
    rw [List.mem_map] at hmap
    obtain ⟨c, hc, hstrip⟩ := hmap
    rw [List.mem_filter] at hc
    obtain ⟨hc2, _⟩ := hc
    rw [List.mem_filter] at hc2
    obtain ⟨hc3, _⟩ := hc2
    rw [List.mem_filter] at hc3
    obtain ⟨_, hnw⟩ := hc3
    have hne : t ≠ [] := by
      intro he
      subst he
      simp at hlen
    have hcne : c ≠ [] := by
      intro he
      subst he
      rw [stripAll_nil] at hstrip
      exact hne hstrip.symm
    have hnw2 : isNonWord c = false := by
      revert hnw
      cases isNonWord c <;> simp
    exact ⟨hne, c, exists_wordChar_of_not_nonWord hcne hnw2, hstrip.symm⟩

/-- Witness for C10 (amended) at a concrete input. -/
theorem tokens_nonempty_witness :
    "hi".toList ≠ ([] : List Char) ∧
      ∃ c : List Char, (∃ ch ∈ c, wordChar ch = true) ∧ "hi".toList = stripAll c :=
  tokens_nonempty ("hi".toList) ("hi".toList)
    (by simp only [markdownTokenize, stripAll_eq_fuel]; decide)

/-- C7: For every file whose extension is "md" case-insensitively, a
successful collection yields a record with files=1, documents=1,
attachments=0 and quality = linkCount/documents = linkCount; for every file
with any other extension it yields files=1, documents=0, attachments=1,
linkCount=0, wordCount=0, tagCount=0 and quality=0. -/
theorem collect_classification (env : Env) (file : TFile)
    (r : FullVaultMetrics) (h : collect env file = some r) :
    (toLowerAscii file.extension = "md" →
      r.files = 1 ∧ r.notes = 1 ∧ r.attachments = 0 ∧
        r.quality = (r.links : ℚ)) ∧
    (toLowerAscii file.extension ≠ "md" →
      r.files = 1 ∧ r.notes = 0 ∧ r.attachments = 1 ∧ r.links = 0 ∧
        r.words = 0 ∧ r.tags = 0 ∧ r.quality = 0) := by
  unfold collect at h
  revert h
  cases hfc : env.getFileCache file with
  | nullResult => intro h; simp at h
  | threw => intro h; simp at h
  | ok m =>
    intro h
    constructor
    · intro hext
      have hft : getFileType file = FileType.Note := by
        unfold getFileType; rw [if_pos hext]
      rw [hft] at h
      have h2 : some (noteMetricsCollect file m (env.cachedRead file)) = some r := h
      injection h2 with h3
      subst h3
      refine ⟨rfl, rfl, rfl, ?_⟩
      show (if (1 : Int) ≠ 0 then
          (((m.links.getD 0 : Nat) : Int) : ℚ) / ((1 : Int) : ℚ) else 0) =
        (((m.links.getD 0 : Nat) : Int) : ℚ)
      rw [if_pos (by norm_num)]
      norm_num
    · intro hext
      have hft : getFileType file = FileType.Attachment := by
        unfold getFileType; rw [if_neg hext]
      rw [hft] at h
      have h2 : some (fileMetricsCollect file m) = some r := h
      injection h2 with h3
      subst h3
      exact ⟨rfl, rfl, rfl, rfl, rfl, rfl, rfl⟩

/-- A note file with uppercase extension and five links, for the C7
witness. -/
def c7NoteFile : TFile := { path := "a.MD", extension := "MD", size := 3 }

/-- An attachment file, for the C7 witness. -/
def c7PngFile : TFile := { path := "b.png", extension := "png", size := 4 }

/-- Metadata with five link entries, for the C7 witness. -/
def c7Meta : CachedMetadata :=
  { links := some 5, tags := some 2, sections := some [] }

/-- Environment for the C7 witness. -/
def c7Env : Env :=
  { getFileCache := fun _ => FileCacheResult.ok c7Meta
    cachedRead := fun _ => some []
    getAbstractFileByPath := fun _ => none }

/-- Witness for C7: the "MD" extension yields a document record whose
quality equals its link count 5, the "png" extension yields an attachment
record with all content counts zero. -/
theorem collect_classification_witness :
    ((noteMetricsCollect c7NoteFile c7Meta (some [])).files = 1 ∧
      (noteMetricsCollect c7NoteFile c7Meta (some [])).notes = 1 ∧
      (noteMetricsCollect c7NoteFile c7Meta (some [])).attachments = 0 ∧
      (noteMetricsCollect c7NoteFile c7Meta (some [])).quality =
        ((noteMetricsCollect c7NoteFile c7Meta (some [])).links : ℚ)) ∧
    ((fileMetricsCollect c7PngFile c7Meta).files = 1 ∧
      (fileMetricsCollect c7PngFile c7Meta).notes = 0 ∧
      (fileMetricsCollect c7PngFile c7Meta).attachments = 1 ∧
      (fileMetricsCollect c7PngFile c7Meta).links = 0 ∧
      (fileMetricsCollect c7PngFile c7Meta).words = 0 ∧
      (fileMetricsCollect c7PngFile c7Meta).tags = 0 ∧
      (fileMetricsCollect c7PngFile c7Meta).quality = 0) ∧
    (noteMetricsCollect c7NoteFile c7Meta (some [])).links = 5 ∧
    (noteMetricsCollect c7NoteFile c7Meta (some [])).quality = 5 :=
  ⟨(collect_classification c7Env c7NoteFile _ rfl).1 (by decide),
   (collect_classification c7Env c7PngFile _ rfl).2 (by decide),
   by decide,
   by simp [noteMetricsCollect, c7Meta]⟩

/-- C8: If the structure provider (getFileCache) returns none or throws for
a key, collect returns "not found" (null) rather than a record — the throw
path is treated identically to the none path — and the drain step for that
key changes nothing: neither the KeyedStore entry for the key nor the
AggregateRecord (the whole state is left untouched). -/
theorem notfound_leaves_state (env env2 : Env) (file : TFile) (path : String)
    (s : CollectorState)
    (h1 : env.getFileCache file = FileCacheResult.threw)
    (h2 : env2.getFileCache file = FileCacheResult.nullResult)
    (h3 : env.getAbstractFileByPath path = some file) :
    collect env file = none ∧ collect env2 file = none ∧
      collect env file = collect env2 file ∧
      processKey env path s = s := by
  have c1 : collect env file = none := by
    unfold collect
    rw [h1]
  have c2 : collect env2 file = none := by
    unfold collect
    rw [h2]
  refine ⟨c1, c2, by rw [c1, c2], ?_⟩
  unfold processKey
  rw [h3]
  show (match collect env file with
    | some metrics => update path metrics s
    | none => s) = s
  rw [c1]

/-- A file whose cache lookup throws, for the C8 witness. -/
def c8File : TFile := { path := "gone.md", extension := "md", size := 3 }

/-- Environment whose getFileCache throws, for the C8 witness. -/
def c8EnvThrew : Env :=
  { getFileCache := fun _ => FileCacheResult.threw
    cachedRead := fun _ => some []
    getAbstractFileByPath := fun _ => some c8File }

/-- Environment whose getFileCache returns null, for the C8 witness. -/
def c8EnvNull : Env :=
  { getFileCache := fun _ => FileCacheResult.nullResult
    cachedRead := fun _ => some []
    getAbstractFileByPath := fun _ => some c8File }

/-- The stale record stored for the key in the C8 witness. -/
def c8Stale : FullVaultMetrics :=
  { files := 1
    notes := 1
    attachments := 0
    size := 3
    links := 0
    words := 2
    tags := 0
    quality := 0 }

/-- A state holding a stale record for the key, for the C8 witness. -/
def c8State : CollectorState :=
  { data := [("gone.md", c8Stale)]
    backlog := []
    vaultMetrics := c8Stale }

/-- Witness for C8 at a concrete environment and state: the stale record
and the aggregate survive untouched. -/
theorem notfound_leaves_state_witness :
    collect c8EnvThrew c8File = none ∧ collect c8EnvNull c8File = none ∧
      collect c8EnvThrew c8File = collect c8EnvNull c8File ∧
      processKey c8EnvThrew "gone.md" c8State = c8State :=
  notfound_leaves_state c8EnvThrew c8EnvNull c8File "gone.md" c8State
    rfl rfl rfl

/-- The excluded note inside the "archive" directory. -/
def c2FileA : TFile := { path := "archive/old.md", extension := "md", size := 7 }

/-- The non-excluded sibling note enqueued in the same batch. -/
def c2FileB : TFile := { path := "notes/new.md", extension := "md", size := 9 }

/-- Metadata for the C2 scenario (no sections, so word counting is not
exercised). -/
def c2Meta : CachedMetadata :=
  { links := some 2, tags := some 1, sections := some [] }

/-- Environment for the C2 scenario: both paths resolve to live files with
cached metadata. -/
def c2Env : Env :=
  { getFileCache := fun _ => FileCacheResult.ok c2Meta
    cachedRead := fun _ => none
    getAbstractFileByPath := fun p =>
      if p = "archive/old.md" then some c2FileA
      else if p = "notes/new.md" then some c2FileB
      else none }

/-- Start state of the C2 scenario: the excluded key followed by its
sibling in the same batch. -/
def c2Start : CollectorState :=
  { data := [], backlog := ["archive/old.md", "notes/new.md"], vaultMetrics := {} }

/-- The same scenario with only the sibling enqueued. -/
def c2Sibling : CollectorState :=
  { data := [], backlog := ["notes/new.md"], vaultMetrics := {} }

/-- C2, evaluated at the failing input: with excluded-directory token
"archive", draining the batch ["archive/old.md", "notes/new.md"] stops at
the excluded key — the excluded key produces no KeyedStore entry and leaves
the AggregateRecord untouched (that half of the claim holds), but the
non-excluded sibling is NOT processed in that drain: the loop breaks and
leaves it sitting in the backlog, although the same sibling alone is
processed fine. This contradicts the claim's "the drain continues with the
remaining backlog rather than terminating". -/
theorem exclusion_breaks_drain :
    (processBacklog c2Env "archive" c2Start).data = [] ∧
    (processBacklog c2Env "archive" c2Start).vaultMetrics =
      ({} : FullVaultMetrics) ∧
    (processBacklog c2Env "archive" c2Start).backlog = ["notes/new.md"] ∧
    isExcluded "archive" "notes/new.md" = false ∧
    (processBacklog c2Env "archive" c2Sibling).data.map Prod.fst =
      ["notes/new.md"] := by
  refine ⟨?_, ?_, ?_, by decide, ?_⟩ <;> decide
